import Mathlib

set_option maxRecDepth 100000

/-!
Verification of the serial console driver of the `circuits` repository.

The definitions below are a shallow embedding of the driver code in
`src/air/src/test/serial_connection.py` (class `SerialConnection`) and
`src/air/src/program.py` (`send_line_and_capture`, `_sanitize_terminal_output`).
Bytes are modelled as `Nat` (values 0..255), byte strings as `List Nat`,
Python `str` as `List Char`.  The background reader loop is modelled as a
step function on the buffer state (`appendChunk`, one step per locked
append performed by `SerialConnection._read_loop`), with the set of
reachable states given by the inductive relation `Reach`, which also
records the full logical byte stream ever appended and the running count
of evicted bytes.
-/

/-- Buffer state of `SerialConnection`: `buf` models `self._buf` (the bytes
currently held), `base` models `self._buf_base_index` (logical index of the
first byte of `buf`), `limit` models `self._buf_limit`. -/
structure BufState where
  buf : List Nat
  base : Nat
  limit : Nat

/-- State directly after `SerialConnection.__init__`: empty buffer,
`_buf_base_index = 0`, configured `buffer_limit_bytes`. -/
def initState (limit : Nat) : BufState :=
  { buf := [], base := 0, limit := limit }

/-- One locked append step of `SerialConnection._read_loop` (lines 120-126):
`self._buf.extend(data)`; then if `len(self._buf) > self._buf_limit`, the
oldest `drop = len - limit` bytes are deleted and `_buf_base_index`
advances by `drop`. -/
def appendChunk (s : BufState) (data : List Nat) : BufState :=
  let buf1 := s.buf ++ data
  if buf1.length > s.limit then
    { s with buf := buf1.drop (buf1.length - s.limit),
             base := s.base + (buf1.length - s.limit) }
  else
    { s with buf := buf1 }

/-- Number of bytes the append of `data` onto state `s` evicts (the `drop`
computed inside `_read_loop` when the limit is exceeded, else 0). -/
def evictedBy (s : BufState) (data : List Nat) : Nat :=
  if (s.buf ++ data).length > s.limit then (s.buf ++ data).length - s.limit else 0

/-- Reachable buffer states.  `Reach limit s stream ev` holds when state `s`
arises from `initState limit` by a sequence of reader-loop appends whose
concatenation is `stream` (every byte ever appended, in order) and which
evicted `ev` bytes in total. -/
inductive Reach (limit : Nat) : BufState → List Nat → Nat → Prop where
  | init : Reach limit (initState limit) [] 0
  | step (s : BufState) (stream : List Nat) (ev : Nat) (d : List Nat) :
      Reach limit s stream ev →
      Reach limit (appendChunk s d) (stream ++ d) (ev + evictedBy s d)

/-- `SerialConnection._snapshot_from` (lines 192-197), restricted to the byte
slice it takes under the lock: `rel = 0 if start_pos is None else
max(0, start_pos - self._buf_base_index)`, then `bytes(self._buf[rel:])`. -/
def snapshotFrom (s : BufState) (startPos : Option Nat) : List Nat :=
  match startPos with
  | none => s.buf
  | some m => s.buf.drop (max 0 ((m : Int) - (s.base : Int))).toNat

/-- Core state invariant of the reader-loop buffer, proved by induction over
the reachability relation. -/
theorem reach_state (limit : Nat) (s : BufState) (stream : List Nat) (ev : Nat)
    (h : Reach limit s stream ev) :
    s.limit = limit ∧ s.base = ev ∧ s.buf.length + ev = stream.length ∧
      s.buf.length ≤ limit ∧ s.buf = stream.drop s.base := by
  induction h with
  | init => simp [initState]
  | step s' stream' ev' d _ ih =>
    obtain ⟨hlim, hbase, hlen, hle, hbuf⟩ := ih
    have hbase_le : s'.base ≤ stream'.length := by omega
    have hsplit : (stream' ++ d).drop s'.base = s'.buf ++ d := by
      rw [List.drop_append_of_le_length hbase_le, hbuf]
    have hL : (s'.buf ++ d).length = s'.buf.length + d.length := List.length_append _ _
    have hSL : (stream' ++ d).length = stream'.length + d.length := List.length_append _ _
    by_cases hc : (s'.buf ++ d).length > s'.limit
    · simp only [appendChunk, evictedBy, if_pos hc]
      refine ⟨hlim, by omega, ?_, ?_, ?_⟩
      · rw [List.length_drop]
        omega
      · rw [List.length_drop]
        omega
      · rw [← hsplit, List.drop_drop]
    · simp only [appendChunk, evictedBy, if_neg hc]
      refine ⟨hlim, by omega, ?_, ?_, ?_⟩
      · omega
      · omega
      · exact hsplit.symm

/-- Claim C1: at every observable point (after each locked reader-loop step)
the raw buffer's length never exceeds the configured limit, the buffer's
current length plus the evicted byte count equals the total number of bytes
ever appended, and `base_offset` (`_buf_base_index`) equals the evicted
count.  (The last two equalities hold at every point, in particular once
eviction has occurred at least once.) -/
theorem c1_buffer_invariant (limit : Nat) (s : BufState) (stream : List Nat)
    (ev : Nat) (h : Reach limit s stream ev) :
    s.buf.length ≤ limit ∧ s.buf.length + ev = stream.length ∧ s.base = ev := by
  obtain ⟨_, hbase, hlen, hle, _⟩ := reach_state limit s stream ev h
  exact ⟨hle, hlen, hbase⟩

/-- Concrete instance of `c1_buffer_invariant`: limit 3, appending 2 then 3
bytes (total 5, evicting 2). -/
theorem c1_witness :
    (appendChunk (appendChunk (initState 3) [1, 2]) [3, 4, 5]).buf.length ≤ 3 ∧
      (appendChunk (appendChunk (initState 3) [1, 2]) [3, 4, 5]).buf.length +
        (0 + evictedBy (initState 3) [1, 2] +
          evictedBy (appendChunk (initState 3) [1, 2]) [3, 4, 5]) =
        (([] ++ [1, 2]) ++ [3, 4, 5]).length ∧
      (appendChunk (appendChunk (initState 3) [1, 2]) [3, 4, 5]).base =
        (0 + evictedBy (initState 3) [1, 2] +
          evictedBy (appendChunk (initState 3) [1, 2]) [3, 4, 5]) :=
  c1_buffer_invariant 3 _ _ _
    (Reach.step _ _ _ [3, 4, 5] (Reach.step _ _ _ [1, 2] Reach.init))

/-- Claim C2: a query scoped to mark `m` only ever sees bytes at logical
offsets ≥ `m`: the byte slice `_snapshot_from` takes is a suffix of the
post-mark part of the full appended stream, for every reachable state —
including states where eviction has advanced `base_offset` beyond `m`.
Since the contains/regex haystack is computed from exactly this slice
(decode then ANSI-strip), no such query can be satisfied by bytes appended
before the mark was taken. -/
theorem c2_mark_scoping (limit : Nat) (s : BufState) (stream : List Nat)
    (ev m : Nat) (h : Reach limit s stream ev) :
    snapshotFrom s (some m) <:+ stream.drop m := by
  obtain ⟨_, _, _, _, hbuf⟩ := reach_state limit s stream ev h
  have hrel : (max 0 ((m : Int) - (s.base : Int))).toNat = m - s.base := by omega
  have hs : snapshotFrom s (some m) = stream.drop (s.base + (m - s.base)) := by
    simp only [snapshotFrom, hrel, hbuf, List.drop_drop]
  rw [hs]
  have h2 : s.base + (m - s.base) = m + (s.base + (m - s.base) - m) := by omega
  rw [h2, ← List.drop_drop]
  exact List.drop_suffix _ _

/-- Concrete instance of `c2_mark_scoping`: limit 2, appends `[1,2]` then
`[3]` (evicting byte 1), mark 2. -/
theorem c2_witness :
    snapshotFrom (appendChunk (appendChunk (initState 2) [1, 2]) [3]) (some 2) <:+
      (([] ++ [1, 2]) ++ [3]).drop 2 :=
  c2_mark_scoping 2 _ _ _ 2
    (Reach.step _ _ _ [3] (Reach.step _ _ _ [1, 2] Reach.init))

/-- A mark that has fallen behind `base_offset` is clamped to the current
buffer start: `max(0, start_pos - base)` evaluates to 0, so the snapshot is
the whole current buffer. -/
theorem snapshotFrom_clamp (s : BufState) (m : Nat) (h : m ≤ s.base) :
    snapshotFrom s (some m) = s.buf := by
  have hrel : (max 0 ((m : Int) - (s.base : Int))).toNat = 0 := by omega
  simp [snapshotFrom, hrel]

/-- Buffer state after two appends of 750 bytes each with limit 1000
(the eviction scenario of claim C3). -/
def c3State : BufState :=
  appendChunk (appendChunk (initState 1000) (List.replicate 750 65)) (List.replicate 750 66)

/-- Claim C3: with buffer limit 1000, after two appends of 750 bytes each
the raw buffer length is 1000 and `base_offset` is 500; a mark recorded at
logical offset 200 — now before `base_offset` — is clamped to the current
buffer start when used in a query (the snapshot is the whole buffer), not
treated as a negative or invalid index. -/
theorem c3_eviction_scenario :
    c3State.buf.length = 1000 ∧ c3State.base = 500 ∧
      snapshotFrom c3State (some 200) = c3State.buf := by
  have e1 : appendChunk (initState 1000) (List.replicate 750 65) =
      { buf := List.replicate 750 65, base := 0, limit := 1000 } := by
    unfold appendChunk initState
    norm_num
  have e2 : c3State =
      { buf := (List.replicate 750 65 ++ List.replicate 750 66).drop 500,
        base := 500, limit := 1000 } := by
    unfold c3State
    rw [e1]
    unfold appendChunk
    norm_num
  have h1 : c3State.buf.length = 1000 := by
    rw [e2]
    simp [List.length_drop, List.length_append, List.length_replicate]
  have h2 : c3State.base = 500 := by
    rw [e2]
  exact ⟨h1, h2, snapshotFrom_clamp c3State 200 (by rw [e2]; norm_num)⟩

/-- Generic prefix test used to model Python substring search: `leadsWith p l`
holds when `p` is an initial segment of `l`. -/
def leadsWith {α : Type} [DecidableEq α] : List α → List α → Bool
  | [], _ => true
  | _ :: _, [] => false
  | p :: ps, x :: xs => if p = x then leadsWith ps xs else false

/-- Python's `in` operator on `bytes`/`str`: `hasSub pat l` is true when
`pat` occurs contiguously somewhere in `l`. -/
def hasSub {α : Type} [DecidableEq α] (pat : List α) : List α → Bool
  | [] => pat.isEmpty
  | x :: xs => leadsWith pat (x :: xs) || hasSub pat xs

/-- The literal 4-byte cursor-position-report query `b"\x1b[6n"`
(ESC `[` `6` `n`) the device may emit while line editing. -/
def cprQuery : List Nat := [0x1b, 0x5b, 0x36, 0x6e]

/-- The literal 6-byte canned reply `b"\x1b[1;1R"` (ESC `[` `1` `;` `1` `R`)
the reader writes back when it sees the query. -/
def cprReply : List Nat := [0x1b, 0x5b, 0x31, 0x3b, 0x31, 0x52]

/-- Fuel-indexed worker for `stripQuery`; fuel `l.length` is always enough,
since every step consumes at least one element. -/
def stripQueryGo : Nat → List Nat → List Nat
  | 0, l => l
  | _ + 1, [] => []
  | fuel + 1, x :: xs =>
    if leadsWith cprQuery (x :: xs) then stripQueryGo fuel ((x :: xs).drop cprQuery.length)
    else x :: stripQueryGo fuel xs

/-- `data.replace(b"\x1b[6n", b"")` as used in `_read_loop` line 119 and
`send_line_and_capture` line 106: removes the left-to-right non-overlapping
occurrences of the query from the chunk. -/
def stripQuery (l : List Nat) : List Nat := stripQueryGo l.length l

/-- The terminal-emulation step of `SerialConnection._read_loop`
(lines 113-119): if the chunk contains the query, write the canned reply
once (`self._ser.write(b"\x1b[1;1R")`) and strip the query bytes from the
chunk; otherwise leave the chunk alone and write nothing.  Returns the
chunk to buffer and the list of writes made to the transport. -/
def processChunk (data : List Nat) : List Nat × List (List Nat) :=
  if hasSub cprQuery data then (stripQuery data, [cprReply]) else (data, [])

/-- A successful `leadsWith` needs the pattern to fit in the list. -/
theorem leadsWith_length {α : Type} [DecidableEq α] (p l : List α)
    (h : leadsWith p l = true) : p.length ≤ l.length := by
  induction p generalizing l with
  | nil => simp
  | cons a ps ih =>
    cases l with
    | nil => simp [leadsWith] at h
    | cons x xs =>
      simp only [leadsWith] at h
      by_cases hax : a = x
      · rw [if_pos hax] at h
        have := ih xs h
        simp only [List.length_cons]
        omega
      · rw [if_neg hax] at h
        exact absurd h (by simp)

/-- `leadsWith` holds for a list against itself followed by anything. -/
theorem leadsWith_append {α : Type} [DecidableEq α] (p r : List α) :
    leadsWith p (p ++ r) = true := by
  induction p with
  | nil => rfl
  | cons a ps ih => simp [leadsWith, ih]

/-- An explicit contiguous occurrence makes `hasSub` true. -/
theorem hasSub_mid {α : Type} [DecidableEq α] (pre pat post : List α) :
    hasSub pat (pre ++ pat ++ post) = true := by
  induction pre with
  | nil =>
    cases pat with
    | nil =>
      cases post with
      | nil => rfl
      | cons y ys =>
        simp only [List.nil_append, hasSub, Bool.or_eq_true]
        exact Or.inl rfl
    | cons a ps =>
      simp only [List.nil_append, hasSub, Bool.or_eq_true]
      exact Or.inl (leadsWith_append (a :: ps) post)
  | cons x xs ih =>
    simp only [List.cons_append, hasSub, Bool.or_eq_true]
    exact Or.inr ih

/-- `stripQueryGo` only deletes bytes: the result is a sublist of the input. -/
theorem stripQueryGo_sublist (fuel : Nat) (l : List Nat) :
    List.Sublist (stripQueryGo fuel l) l := by
  induction fuel generalizing l with
  | zero => exact List.Sublist.refl l
  | succ n ih =>
    cases l with
    | nil => exact List.Sublist.refl []
    | cons x xs =>
      simp only [stripQueryGo]
      by_cases hc : leadsWith cprQuery (x :: xs) = true
      · rw [if_pos hc]
        exact (ih _).trans (List.drop_sublist _ _)
      · rw [if_neg hc]
        exact (ih xs).cons₂ x

/-- When the query occurs, `stripQueryGo` (with sufficient fuel) removes at
least one full occurrence: the length shrinks by at least `cprQuery.length`. -/
theorem stripQueryGo_length (fuel : Nat) (l : List Nat) (hf : l.length ≤ fuel)
    (h : hasSub cprQuery l = true) :
    (stripQueryGo fuel l).length + cprQuery.length ≤ l.length := by
  induction fuel generalizing l with
  | zero =>
    have : l = [] := by
      cases l with
      | nil => rfl
      | cons x xs => simp at hf
    subst this
    simp [hasSub, cprQuery] at h
  | succ n ih =>
    cases l with
    | nil => simp [hasSub, cprQuery] at h
    | cons x xs =>
      simp only [stripQueryGo]
      by_cases hc : leadsWith cprQuery (x :: xs) = true
      · rw [if_pos hc]
        have hfit := leadsWith_length _ _ hc
        have hsub := stripQueryGo_sublist n ((x :: xs).drop cprQuery.length)
        have hlen := hsub.length_le
        rw [List.length_drop] at hlen
        omega
      · rw [if_neg hc]
        have hxs : hasSub cprQuery xs = true := by
          simp only [hasSub, Bool.or_eq_true] at h
          rcases h with h1 | h2
          · exact absurd h1 hc
          · exact h2
        have hfx : xs.length ≤ n := by
          simp only [List.length_cons] at hf
          omega
        have := ih xs hfx hxs
        simp only [List.length_cons]
        omega

/-- Claim C4: for every read chunk containing the literal 4-byte
cursor-position-report query, the reader writes the literal 6-byte reply
back to the transport exactly once (one write, of exactly `cprReply`), and
the query bytes are removed from the chunk before it is buffered: the
buffered chunk is `data.replace(query, b"")`, a sublist of the original
that is shorter by at least the 4 removed query bytes. -/
theorem c4_cpr_emulation (data : List Nat) (h : hasSub cprQuery data = true) :
    (processChunk data).2 = [cprReply] ∧
      (processChunk data).1 = stripQuery data ∧
      List.Sublist (processChunk data).1 data ∧
      (processChunk data).1.length + 4 ≤ data.length := by
  have hq : cprQuery.length = 4 := rfl
  have h4 : (stripQuery data).length + cprQuery.length ≤ data.length :=
    stripQueryGo_length data.length data (Nat.le_refl _) h
  have hsub : List.Sublist (stripQuery data) data := stripQueryGo_sublist _ _
  have hpc : processChunk data = (stripQuery data, [cprReply]) := by
    simp only [processChunk, if_pos h]
  rw [hpc]
  refine ⟨rfl, rfl, hsub, ?_⟩
  show (stripQuery data).length + 4 ≤ data.length
  omega

/-- Concrete instance of `c4_cpr_emulation`: the query interleaved between
the text bytes `ab` and `cd`. -/
theorem c4_witness :
    (processChunk ([97, 98] ++ cprQuery ++ [99, 100])).2 = [cprReply] ∧
      (processChunk ([97, 98] ++ cprQuery ++ [99, 100])).1 =
        stripQuery ([97, 98] ++ cprQuery ++ [99, 100]) ∧
      List.Sublist (processChunk ([97, 98] ++ cprQuery ++ [99, 100])).1
        ([97, 98] ++ cprQuery ++ [99, 100]) ∧
      (processChunk ([97, 98] ++ cprQuery ++ [99, 100])).1.length + 4 ≤
        ([97, 98] ++ cprQuery ++ [99, 100]).length :=
  c4_cpr_emulation _ (hasSub_mid [97, 98] cprQuery [99, 100])

/-- U+FFFD, the replacement character produced by Python's
`bytes.decode("utf-8", errors="replace")` for each maximal invalid
subpart. -/
def replChar : Char := Char.ofNat 0xfffd

/-- UTF-8 continuation byte (0x80-0xbf). -/
def contB (b : Nat) : Bool := 0x80 ≤ b && b ≤ 0xbf

/-- Valid second byte of a 3-byte UTF-8 sequence with lead byte `b`
(restricted ranges for 0xe0 and 0xed, per the UTF-8 well-formedness table
CPython's decoder enforces). -/
def second3 (b b2 : Nat) : Bool :=
  if b = 0xe0 then 0xa0 ≤ b2 && b2 ≤ 0xbf
  else if b = 0xed then 0x80 ≤ b2 && b2 ≤ 0x9f
  else contB b2

/-- Valid second byte of a 4-byte UTF-8 sequence with lead byte `b`
(restricted ranges for 0xf0 and 0xf4). -/
def second4 (b b2 : Nat) : Bool :=
  if b = 0xf0 then 0x90 ≤ b2 && b2 ≤ 0xbf
  else if b = 0xf4 then 0x80 ≤ b2 && b2 ≤ 0x8f
  else contB b2

/-- Fuel-indexed worker for `pyDecodeReplace`; fuel `l.length` is always
enough because every step consumes at least one byte. -/
def pyDecodeReplaceGo : Nat → List Nat → List Char
  | 0, _ => []
  | _ + 1, [] => []
  | fuel + 1, b :: bs =>
    if b ≤ 0x7f then Char.ofNat b :: pyDecodeReplaceGo fuel bs
    else if 0xc2 ≤ b && b ≤ 0xdf then
      match bs with
      | [] => [replChar]
      | b2 :: rest =>
        if contB b2 then
          Char.ofNat ((b - 0xc0) * 0x40 + (b2 - 0x80)) :: pyDecodeReplaceGo fuel rest
        else replChar :: pyDecodeReplaceGo fuel bs
    else if 0xe0 ≤ b && b ≤ 0xef then
      match bs with
      | [] => [replChar]
      | b2 :: rest =>
        if second3 b b2 then
          match rest with
          | [] => [replChar]
          | b3 :: rest2 =>
            if contB b3 then
              Char.ofNat ((b - 0xe0) * 0x1000 + (b2 - 0x80) * 0x40 + (b3 - 0x80)) ::
                pyDecodeReplaceGo fuel rest2
            else replChar :: pyDecodeReplaceGo fuel rest
        else replChar :: pyDecodeReplaceGo fuel bs
    else if 0xf0 ≤ b && b ≤ 0xf4 then
      match bs with
      | [] => [replChar]
      | b2 :: rest =>
        if second4 b b2 then
          match rest with
          | [] => [replChar]
          | b3 :: rest2 =>
            if contB b3 then
              match rest2 with
              | [] => [replChar]
              | b4 :: rest3 =>
                if contB b4 then
                  Char.ofNat ((b - 0xf0) * 0x40000 + (b2 - 0x80) * 0x1000 +
                    (b3 - 0x80) * 0x40 + (b4 - 0x80)) :: pyDecodeReplaceGo fuel rest3
                else replChar :: pyDecodeReplaceGo fuel rest2
            else replChar :: pyDecodeReplaceGo fuel rest
        else replChar :: pyDecodeReplaceGo fuel bs
    else replChar :: pyDecodeReplaceGo fuel bs

/-- Model of Python's `raw.decode("utf-8", errors="replace")`: standard
UTF-8 decoding where each maximal invalid subpart is replaced by one
U+FFFD, as CPython does.  All inputs the proved theorems evaluate this on
are plain ASCII, where every conforming decoder agrees byte-for-byte. -/
def pyDecodeReplace (l : List Nat) : List Char := pyDecodeReplaceGo l.length l

/-- UTF-8 encoding of one character, modelling Python's
`str.encode("utf-8")` per character. -/
def utf8EncodeChar (c : Char) : List Nat :=
  let n := c.toNat
  if n ≤ 0x7f then [n]
  else if n ≤ 0x7ff then [0xc0 + n / 0x40, 0x80 + n % 0x40]
  else if n ≤ 0xffff then [0xe0 + n / 0x1000, 0x80 + n / 0x40 % 0x40, 0x80 + n % 0x40]
  else [0xf0 + n / 0x40000, 0x80 + n / 0x1000 % 0x40, 0x80 + n / 0x40 % 0x40, 0x80 + n % 0x40]

/-- Python's `s.encode("utf-8")`. -/
def utf8Encode (l : List Char) : List Nat := (l.map utf8EncodeChar).flatten

/-- The escape character ESC (0x1b) that introduces ANSI sequences. -/
def escChar : Char := Char.ofNat 0x1b

/-- The BEL character (0x07), one of the two OSC terminators. -/
def belChar : Char := Char.ofNat 0x07

/-- Matching of the tail of an OSC sequence, after `ESC ]` has been
consumed: the regex `ANSI_OSC_RE = \x1B\].*?(?:\x07|\x1B\\)` matches
non-greedily any characters other than newline (`.` does not match `\n`)
up to the earliest BEL or `ESC \` terminator.  Returns the rest of the
input after the full match, or `none` if the regex cannot match here. -/
def oscTailRest : List Char → Option (List Char)
  | [] => none
  | c :: cs =>
    if c = belChar then some cs
    else if c = escChar && cs.head? = some '\\' then some cs.tail
    else if c = '\n' then none
    else oscTailRest cs

/-- Full `ANSI_OSC_RE` match attempt at the current position: `ESC ]`
followed by the non-greedy tail.  Returns the rest after the match. -/
def oscMatchRest : List Char → Option (List Char)
  | e :: r :: cs => if e = escChar && r = ']' then oscTailRest cs else none
  | _ => none

/-- Fuel-indexed worker for `oscSub`; fuel `l.length` is always enough
because every step consumes at least one character. -/
def oscSubGo : Nat → List Char → List Char
  | 0, l => l
  | _ + 1, [] => []
  | fuel + 1, c :: cs =>
    match oscMatchRest (c :: cs) with
    | some rest => oscSubGo fuel rest
    | none => c :: oscSubGo fuel cs

/-- `ANSI_OSC_RE.sub("", text)`: left-to-right removal of every
non-overlapping OSC escape sequence. -/
def oscSub (l : List Char) : List Char := oscSubGo l.length l

/-- CSI parameter byte class `[0-?]` (0x30-0x3f). -/
def csiParamB (c : Char) : Bool := 0x30 ≤ c.toNat && c.toNat ≤ 0x3f

/-- CSI intermediate byte class (space through slash, 0x20-0x2f). -/
def csiInterB (c : Char) : Bool := 0x20 ≤ c.toNat && c.toNat ≤ 0x2f

/-- CSI final byte class `[@-~]` (0x40-0x7e). -/
def csiFinalB (c : Char) : Bool := 0x40 ≤ c.toNat && c.toNat ≤ 0x7e

/-- Match the single final byte of a CSI sequence. -/
def csiFinal : List Char → Option (List Char)
  | [] => none
  | c :: cs => if csiFinalB c then some cs else none

/-- Greedily match zero or more intermediate bytes then the final byte.
Because the three CSI byte classes are disjoint, greedy matching without
backtracking is exactly what the regex engine computes. -/
def csiInter : List Char → Option (List Char)
  | [] => none
  | c :: cs => if csiInterB c then csiInter cs else csiFinal (c :: cs)

/-- Greedily match `[0-?]*` then intermediates and the final byte. -/
def csiParams : List Char → Option (List Char)
  | [] => none
  | c :: cs => if csiParamB c then csiParams cs else csiInter (c :: cs)

/-- Full `ANSI_CSI_RE` match attempt at the current position: ESC then a
literal open bracket, then parameter bytes, intermediate bytes and one
final byte.  Returns the rest after the match. -/
def csiMatchRest : List Char → Option (List Char)
  | e :: b :: cs => if e = escChar && b = '[' then csiParams cs else none
  | _ => none

/-- Fuel-indexed worker for `csiSub`. -/
def csiSubGo : Nat → List Char → List Char
  | 0, l => l
  | _ + 1, [] => []
  | fuel + 1, c :: cs =>
    match csiMatchRest (c :: cs) with
    | some rest => csiSubGo fuel rest
    | none => c :: csiSubGo fuel cs

/-- `ANSI_CSI_RE.sub("", text)`: left-to-right removal of every
non-overlapping CSI escape sequence. -/
def csiSub (l : List Char) : List Char := csiSubGo l.length l

/-- The `_sanitize` filter of `serial_connection.py` (lines 29-32), equal to
`_sanitize_terminal_output` of `program.py` after decoding: OSC removal
first, then CSI removal. -/
def sanitize (l : List Char) : List Char := csiSub (oscSub l)

/-- An OSC match attempt fails immediately when the position does not start
with ESC. -/
theorem oscMatchRest_none (c : Char) (cs : List Char) (h : c ≠ escChar) :
    oscMatchRest (c :: cs) = none := by
  cases cs with
  | nil => rfl
  | cons r cs' => simp [oscMatchRest, h]

/-- A CSI match attempt fails immediately when the position does not start
with ESC. -/
theorem csiMatchRest_none (c : Char) (cs : List Char) (h : c ≠ escChar) :
    csiMatchRest (c :: cs) = none := by
  cases cs with
  | nil => rfl
  | cons r cs' => simp [csiMatchRest, h]

/-- OSC removal leaves a string containing no ESC untouched (every regex
match starts with ESC). -/
theorem oscSubGo_noEsc (fuel : Nat) (l : List Char) (h : escChar ∉ l) :
    oscSubGo fuel l = l := by
  induction fuel generalizing l with
  | zero => rfl
  | succ n ih =>
    cases l with
    | nil => rfl
    | cons c cs =>
      have hc : c ≠ escChar := fun hh => h (by rw [hh]; exact List.mem_cons_self _ _)
      simp only [oscSubGo, oscMatchRest_none c cs hc]
      rw [ih cs (fun hm => h (List.mem_cons_of_mem c hm))]

/-- CSI removal leaves a string containing no ESC untouched. -/
theorem csiSubGo_noEsc (fuel : Nat) (l : List Char) (h : escChar ∉ l) :
    csiSubGo fuel l = l := by
  induction fuel generalizing l with
  | zero => rfl
  | succ n ih =>
    cases l with
    | nil => rfl
    | cons c cs =>
      have hc : c ≠ escChar := fun hh => h (by rw [hh]; exact List.mem_cons_self _ _)
      simp only [csiSubGo, csiMatchRest_none c cs hc]
      rw [ih cs (fun hm => h (List.mem_cons_of_mem c hm))]

/-- The ANSI filter fixes every string that contains no ESC character. -/
theorem sanitize_noEsc (l : List Char) (h : escChar ∉ l) : sanitize l = l := by
  unfold sanitize oscSub csiSub
  rw [oscSubGo_noEsc _ _ h]
  rw [csiSubGo_noEsc _ _ h]

/-- The input refuting idempotence of the ANSI filter: `ESC [ ESC [ A A`.
One pass removes the inner `ESC [ A`, splicing the remaining bytes into a
fresh CSI sequence `ESC [ A`; a second pass removes that too. -/
def c10Ex : List Char := [escChar, '[', escChar, '[', 'A', 'A']

/-- Claim C10 is false as stated: the OSC/CSI sanitizer is not idempotent.
On `ESC [ ESC [ A A`, one application yields `ESC [ A` while a second
application yields the empty string. -/
theorem c10_counterexample : sanitize (sanitize c10Ex) ≠ sanitize c10Ex := by
  decide

/-- Claim C10 (amended): the ANSI-stripping filter is idempotent on every
input whose once-sanitized output contains no ESC character; in general a
removal can splice surrounding bytes into a new escape sequence, so a
second application may strip further. -/
theorem c10_sanitize_conditional_idempotent (s : List Char)
    (h : escChar ∉ sanitize s) : sanitize (sanitize s) = sanitize s :=
  sanitize_noEsc (sanitize s) h

/-- Concrete instance of `c10_sanitize_conditional_idempotent`: a string
with one complete CSI sequence between plain text. -/
theorem c10_witness :
    escChar ∉ sanitize ("abc".toList ++ [escChar, '[', '2', 'J'] ++ "def".toList) ∧
      sanitize (sanitize ("abc".toList ++ [escChar, '[', '2', 'J'] ++ "def".toList)) =
        sanitize ("abc".toList ++ [escChar, '[', '2', 'J'] ++ "def".toList) :=
  ⟨by decide, c10_sanitize_conditional_idempotent _ (by decide)⟩

/-- `SerialConnection._snapshot_text` (lines 132-135): decode the whole raw
buffer (lossy) and ANSI-strip it.  Note it is the entire buffer, with no
mark scoping. -/
def snapshotText (s : BufState) : List Char := sanitize (pyDecodeReplace s.buf)

/-- `SerialConnection._snapshot_from` (lines 192-197) at the text level:
decode the mark-scoped byte slice (lossy) and ANSI-strip it. -/
def snapshotFromText (s : BufState) (startPos : Option Nat) : List Char :=
  sanitize (pyDecodeReplace (snapshotFrom s startPos))

/-- The needle `_wait_echo` looks for: `f"{line}\n"`. -/
def echoNeedle (line : List Char) : List Char := line ++ ['\n']

/-- One polling iteration of `SerialConnection._wait_echo` (lines 137-144):
`needle in self._snapshot_text()` — the haystack is the full-buffer
snapshot, not the mark-scoped one. -/
def echoCheck (s : BufState) (line : List Char) : Bool :=
  hasSub (echoNeedle line) (snapshotText s)

/-- Outcome of the `_wait_echo` polling loop over the sequence of buffer
states observed at its poll instants (true iff the needle was seen before
the deadline expired; timing is abstracted into the finite poll trace). -/
def waitEcho (line : List Char) (polls : List BufState) : Bool :=
  polls.any (fun st => echoCheck st line)

/-- Result of `SerialConnection.send_command` (lines 177-190): the returned
mark (`_buf_base_index + len(_buf)` captured under the lock before
writing), the single transport write (`(line + "\r\n").encode("utf-8")`),
and the ignored echo-wait outcome. -/
structure SendCommandResult where
  mark : Nat
  written : List Nat
  echoSeen : Bool

/-- `SerialConnection.send_command`: capture the mark, perform one write of
the encoded line plus CRLF, flush, run `_wait_echo` (its boolean result is
discarded — the mark is returned whether or not the echo appeared). -/
def sendCommand (s : BufState) (line : List Char) (polls : List BufState) :
    SendCommandResult :=
  { mark := s.base + s.buf.length,
    written := utf8Encode (line ++ ['\r', '\n']),
    echoSeen := waitEcho line polls }

/-- Claim C5 is false as stated: the echo wait is not scoped to the
returned Mark.  In a buffer already containing `cmd\n` (all four bytes
before the mark, which sits at the logical end), `send_command "cmd"`
sees its echo check succeed on the very first poll even though the
mark-scoped snapshot is empty — the "echo" is satisfied entirely by bytes
appended before the Mark. -/
theorem c5_counterexample :
    (sendCommand ⟨[99, 109, 100, 10], 0, 1000000⟩ ['c', 'm', 'd']
        [⟨[99, 109, 100, 10], 0, 1000000⟩]).echoSeen = true ∧
      snapshotFromText ⟨[99, 109, 100, 10], 0, 1000000⟩
        (some (sendCommand ⟨[99, 109, 100, 10], 0, 1000000⟩ ['c', 'm', 'd']
          [⟨[99, 109, 100, 10], 0, 1000000⟩]).mark) = [] := by
  decide

/-- Claim C5 (amended): `send_command` captures a Mark at the current
logical end of the buffer (equal to the total number of bytes ever
appended), writes the line followed by the fixed CRLF terminator as one
single write, flushes, then waits up to a default 2-second timeout for the
literal echoed line (`line + "\n"`) to appear anywhere in the sanitized
snapshot of the entire buffer — the echo wait is not scoped to the Mark —
and returns the same Mark whether or not the echo was observed, raising no
error on timeout. -/
theorem c5_send_command (limit : Nat) (s : BufState) (stream : List Nat)
    (ev : Nat) (line : List Char) (polls : List BufState)
    (h : Reach limit s stream ev) :
    (sendCommand s line polls).mark = stream.length ∧
      (sendCommand s line polls).written = utf8Encode (line ++ ['\r', '\n']) ∧
      (sendCommand s line polls).mark = (sendCommand s line []).mark := by
  obtain ⟨_, hbase, hlen, _, _⟩ := reach_state limit s stream ev h
  refine ⟨?_, rfl, rfl⟩
  show s.base + s.buf.length = stream.length
  omega

/-- Concrete instance of `c5_send_command`: limit 2, appends `[1,2]` then
`[3]`, so the mark is the full stream length 3. -/
theorem c5_witness :
    (sendCommand (appendChunk (appendChunk (initState 2) [1, 2]) [3]) ['o', 'k']
        []).mark = (([] ++ [1, 2]) ++ [3]).length ∧
      (sendCommand (appendChunk (appendChunk (initState 2) [1, 2]) [3]) ['o', 'k']
        []).written = utf8Encode (['o', 'k'] ++ ['\r', '\n']) ∧
      (sendCommand (appendChunk (appendChunk (initState 2) [1, 2]) [3]) ['o', 'k']
        []).mark =
        (sendCommand (appendChunk (appendChunk (initState 2) [1, 2]) [3]) ['o', 'k']
          []).mark :=
  c5_send_command 2 _ _ _ ['o', 'k'] []
    (Reach.step _ _ _ [3] (Reach.step _ _ _ [1, 2] Reach.init))

/-- Default idle threshold of `send_line_and_capture` (`idle_threshold_s =
0.4`), in milliseconds. -/
def idleThresholdMs : Nat := 400

/-- Default maximum wait of `send_line_and_capture` (`max_wait_s = 6.0`),
in milliseconds. -/
def maxWaitMs : Nat := 6000

/-- Result of the read loop of `send_line_and_capture`: accumulated raw
buffer, transport writes performed (CPR replies), the part of the read
trace the loop never consumed, and whether it exited via `break`. -/
structure CaptureOut where
  buf : List Nat
  writes : List (List Nat)
  remaining : List (List Nat × Nat)
  broke : Bool

/-- The read loop of `program.py`'s `send_line_and_capture` (lines 93-114)
over a trace of reads: each element is the chunk `ser.read(256)` returned
together with the value of `time.time()` (in ms) right after it.  A
non-empty chunk runs CPR emulation, is buffered, and refreshes
`last_data`; an empty chunk breaks when `now - last_data >=
idle_threshold` or `now - start >= max_wait`, else the loop sleeps and
continues.  An exhausted trace means the loop is still reading (`broke =
false`). -/
def captureLoop (start : Nat) (trace : List (List Nat × Nat)) (lastData : Nat)
    (buf : List Nat) (writes : List (List Nat)) : CaptureOut :=
  match trace with
  | [] => ⟨buf, writes, [], false⟩
  | (data, now) :: rest =>
    if data ≠ [] then
      captureLoop start rest now (buf ++ (processChunk data).1)
        (writes ++ (processChunk data).2)
    else
      if now - lastData ≥ idleThresholdMs then ⟨buf, writes, rest, true⟩
      else if now - start ≥ maxWaitMs then ⟨buf, writes, rest, true⟩
      else captureLoop start rest lastData buf writes

/-- `send_line_and_capture(ser, line)`: one write of the encoded line plus
CRLF, then the read loop starting with `last_data = start`, returning the
sanitized decoded transcript of the accumulated buffer. -/
def sendLineAndCapture (line : List Char) (start : Nat)
    (trace : List (List Nat × Nat)) : List Nat × List Char × CaptureOut :=
  let out := captureLoop start trace start [] []
  (utf8Encode (line ++ ['\r', '\n']), sanitize (pyDecodeReplace out.buf), out)

/-- Claim C6 is false as stated: the loop does not stop as soon as the
maximum wait has elapsed for every possible incoming byte stream.  With
reads at 7000 ms and 8000 ms (both past the 6000 ms maximum counted from
`start = 0`) that keep returning data, the loop consumes both reads,
buffers their bytes and never breaks. -/
theorem c6_counterexample :
    (captureLoop 0 [([65], 7000), ([66], 8000)] 0 [] []).broke = false ∧
      (captureLoop 0 [([65], 7000), ([66], 8000)] 0 [] []).buf = [65, 66] := by
  decide

/-- Claim C6 (amended): `send_line_and_capture` evaluates its stop
conditions only on reads that return no bytes.  It stops at the first
empty read at which either no bytes have arrived for the idle threshold
(default 400 ms) or the maximum wait (default 6 s) has elapsed since the
write; a stream that delivers bytes on every read is never stopped by the
maximum wait.  It returns the filtered transcript of what was buffered. -/
theorem c6_capture_stop :
    (∀ (start : Nat) (trace : List (List Nat × Nat)) (lastData : Nat)
        (buf : List Nat) (writes : List (List Nat)),
      (∀ p ∈ trace, p.1 ≠ []) →
      (captureLoop start trace lastData buf writes).broke = false) ∧
    (∀ (start : Nat) (rest : List (List Nat × Nat)) (lastData now : Nat)
        (hbuf : List Nat) (hwrites : List (List Nat)),
      idleThresholdMs ≤ now - lastData ∨ maxWaitMs ≤ now - start →
      captureLoop start (([], now) :: rest) lastData hbuf hwrites =
        ⟨hbuf, hwrites, rest, true⟩) := by
  constructor
  · intro start trace
    induction trace with
    | nil => intro lastData buf writes _; rfl
    | cons p rest ih =>
      intro lastData buf writes hall
      obtain ⟨data, now⟩ := p
      have hd : data ≠ [] := hall (data, now) (List.mem_cons_self _ _)
      simp only [captureLoop, if_pos hd]
      exact ih now _ _ (fun q hq => hall q (List.mem_cons_of_mem _ hq))
  · intro start rest lastData now hbuf hwrites hcond
    have hne : ¬(([] : List Nat) ≠ []) := by simp
    by_cases h1 : idleThresholdMs ≤ now - lastData
    · simp only [captureLoop, if_neg hne, if_pos h1]
    · have h2 : maxWaitMs ≤ now - start := by
        rcases hcond with hc | hc
        · exact absurd hc h1
        · exact hc
      simp only [captureLoop, if_neg hne, if_neg h1, if_pos h2]

/-- Concrete instance of `c6_capture_stop`: an all-nonempty trace past the
deadline never breaks, and a single empty read at 7000 ms (past the 6000 ms
maximum) stops the loop immediately. -/
theorem c6_witness :
    (captureLoop 0 [([65], 9000)] 0 [] []).broke = false ∧
      captureLoop 0 [([], 7000)] 6500 [] [] = ⟨[], [], [], true⟩ :=
  ⟨c6_capture_stop.1 0 [([65], 9000)] 0 [] [] (by decide),
   c6_capture_stop.2 0 [] 6500 7000 [] [] (by decide)⟩

/-- One iteration of `SerialConnection.wait_for_idle`'s polling loop
(lines 149-159), as observed values: `tGuard` is `time.time()` at the
`while` guard, `lenBefore` is `len(self._buf)` before the 100 ms sleep,
`lenAfter` is `len(self._buf)` after it, and `tAfter` is `time.time()`
after the sleep (the code reads the clock twice there; both reads are
modelled by the same instant). -/
structure IdlePoll where
  tGuard : Nat
  lenBefore : Nat
  lenAfter : Nat
  tAfter : Nat

/-- `SerialConnection.wait_for_idle` over a trace of polls, starting with
`last_data_time = lastData` (initially the call instant) and a fixed
`deadline = call instant + timeout_s`.  Returns `true` when the call
returns normally (idle detected) and `false` when it raises
`RuntimeError("Console did not become idle")`; an exhausted trace models
the clock reaching the deadline. -/
def waitForIdle (silence deadline : Nat) (trace : List IdlePoll) (lastData : Nat) :
    Bool :=
  match trace with
  | [] => false
  | p :: rest =>
    if p.tGuard < deadline then
      if p.tAfter - (if p.lenAfter > p.lenBefore then p.tAfter else lastData) >
          silence then true
      else waitForIdle silence deadline rest
        (if p.lenAfter > p.lenBefore then p.tAfter else lastData)
    else false

/-- Buffer state at its eviction limit for the C7 counterexample: limit 2,
one append of three bytes. -/
def c7State : BufState := appendChunk (initState 2) [1, 2, 3]

/-- Claim C7 is false as stated: once the buffer has reached its eviction
limit, `wait_for_idle` no longer sees arriving bytes.  At `c7State`
(length pinned at the limit 2) the arrival of the non-empty chunk `[4]`
leaves `len(self._buf)` unchanged, so the poll that spans this arrival
observes no growth and `wait_for_idle` returns as if idle even though new
bytes arrived during the window. -/
theorem c7_counterexample :
    ([4] ≠ ([] : List Nat)) ∧
      (appendChunk c7State [4]).buf.length = c7State.buf.length ∧
      waitForIdle 500 20000
        [⟨0, c7State.buf.length, (appendChunk c7State [4]).buf.length, 1000⟩] 0 =
        true := by
  decide

/-- Claim C7 (amended): `wait_for_idle` detects new data through growth of
the raw buffer length, which coincides with byte arrival only below the
eviction limit: below the limit a non-empty append strictly grows the
length, while at the limit any append leaves the length unchanged.  The
loop returns once the observed length has not grown for more than
`silence_duration`, and raises `RuntimeError` when the deadline arrives
(trace exhausted or guard failing) before that. -/
theorem c7_wait_for_idle :
    (∀ (s : BufState) (d : List Nat), d ≠ [] → s.buf.length + d.length ≤ s.limit →
      s.buf.length < (appendChunk s d).buf.length) ∧
    (∀ (s : BufState) (d : List Nat), s.buf.length = s.limit →
      (appendChunk s d).buf.length = s.buf.length) ∧
    (∀ (silence deadline lastData : Nat),
      waitForIdle silence deadline [] lastData = false) ∧
    (∀ (silence deadline : Nat) (p : IdlePoll) (rest : List IdlePoll)
        (lastData : Nat), deadline ≤ p.tGuard →
      waitForIdle silence deadline (p :: rest) lastData = false) ∧
    (∀ (silence deadline : Nat) (p : IdlePoll) (rest : List IdlePoll)
        (lastData : Nat), p.tGuard < deadline → p.lenAfter ≤ p.lenBefore →
      silence < p.tAfter - lastData →
      waitForIdle silence deadline (p :: rest) lastData = true) := by
  refine ⟨?_, ?_, ?_, ?_, ?_⟩
  · intro s d hd hle
    have hdl : 0 < d.length := List.length_pos.mpr hd
    have hL : (s.buf ++ d).length = s.buf.length + d.length := List.length_append _ _
    have hc : ¬((s.buf ++ d).length > s.limit) := by omega
    simp only [appendChunk, if_neg hc]
    omega
  · intro s d hlim
    have hL : (s.buf ++ d).length = s.buf.length + d.length := List.length_append _ _
    by_cases hc : (s.buf ++ d).length > s.limit
    · simp only [appendChunk, if_pos hc]
      rw [List.length_drop]
      omega
    · simp only [appendChunk, if_neg hc]
      omega
  · intro silence deadline lastData
    rfl
  · intro silence deadline p rest lastData hg
    have hng : ¬(p.tGuard < deadline) := by omega
    simp only [waitForIdle, if_neg hng]
  · intro silence deadline p rest lastData hg hlen hsil
    have hgrow : ¬(p.lenAfter > p.lenBefore) := by omega
    simp only [waitForIdle, if_pos hg, if_neg hgrow, if_pos hsil]

/-- Concrete instance of `c7_wait_for_idle`: below-limit growth, at-limit
stagnation, immediate raise at the deadline, and immediate return on a
silent poll. -/
theorem c7_witness :
    ((initState 5).buf.length < (appendChunk (initState 5) [9]).buf.length) ∧
      ((appendChunk c7State [4]).buf.length = c7State.buf.length) ∧
      (waitForIdle 500 20000 [] 0 = false) ∧
      (waitForIdle 500 100 [⟨100, 0, 0, 150⟩] 0 = false) ∧
      (waitForIdle 500 20000 [⟨0, 2, 2, 1000⟩] 0 = true) :=
  ⟨c7_wait_for_idle.1 (initState 5) [9] (by decide) (by decide),
   c7_wait_for_idle.2.1 c7State [4] (by decide),
   c7_wait_for_idle.2.2.1 500 20000 0,
   c7_wait_for_idle.2.2.2.1 500 100 ⟨100, 0, 0, 150⟩ [] 0 (by decide),
   c7_wait_for_idle.2.2.2.2 500 20000 ⟨0, 2, 2, 1000⟩ [] 0 (by decide) (by decide)
     (by decide)⟩

/-- The fixed text before the transcript in `assert_contains`'s
`AssertionError` message: the "Did not find substring" line, the joining
newline and the opening separator line (the `timeout_s`/`needle!r`
interpolation of the f-string is abstracted to the needle itself). -/
def diagHeader (needle : List Char) : List Char :=
  "Did not find substring: ".toList ++ needle ++
    "\n--- captured output (full) ---\n".toList

/-- The fixed text after the transcript in the failure message. -/
def diagFooter : List Char := "\n--- end captured output ---".toList

/-- The full `AssertionError` message of `assert_contains` (lines 205-213):
`"\n".join([...])` of the header line, the separator, the captured
transcript `hay`, and the closing separator — the transcript is embedded
verbatim between the two separators. -/
def diagMsg (needle hay : List Char) : List Char :=
  diagHeader needle ++ hay ++ diagFooter

/-- One iteration of `SerialConnection.assert_contains` (lines 199-214) at
poll state `s` and clock value `t`: recompute the mark-scoped sanitized
haystack; return success when the needle occurs, raise the diagnostic
`AssertionError` when the deadline has passed, else keep polling
(`none`). -/
def assertStep (needle : List Char) (deadline : Nat) (mark : Option Nat)
    (s : BufState) (t : Nat) : Option (Except (List Char) Unit) :=
  if hasSub needle (snapshotFromText s mark) then some (Except.ok ())
  else if deadline ≤ t then
    some (Except.error (diagMsg needle (snapshotFromText s mark)))
  else none

/-- The `assert_contains` polling loop over a trace of (buffer state,
clock) observations; `none` means the trace ended while the loop was still
polling. -/
def assertContainsRun (needle : List Char) (deadline : Nat) (mark : Option Nat) :
    List (BufState × Nat) → Option (Except (List Char) Unit)
  | [] => none
  | (s, t) :: rest =>
    match assertStep needle deadline mark s t with
    | some r => some r
    | none => assertContainsRun needle deadline mark rest

/-- Claim C8: `assert_contains` polls the filtered text from the mark
forward until the needle is a substring or the timeout elapses; when it
raises, the raised diagnostic is exactly the message embedding the full
sanitized text captured since the mark at the raising poll (which occurred
at or past the deadline), so a timeout never fails silently or without the
transcript attached; and when it returns, some poll's mark-scoped haystack
contained the needle. -/
theorem c8_assert_contains (needle : List Char) (deadline : Nat)
    (mark : Option Nat) (polls : List (BufState × Nat)) :
    (∀ e, assertContainsRun needle deadline mark polls = some (Except.error e) →
      ∃ s t, (s, t) ∈ polls ∧ deadline ≤ t ∧
        e = diagMsg needle (snapshotFromText s mark) ∧
        hasSub (snapshotFromText s mark) e = true) ∧
    (assertContainsRun needle deadline mark polls = some (Except.ok ()) →
      ∃ s t, (s, t) ∈ polls ∧ hasSub needle (snapshotFromText s mark) = true) := by
  induction polls with
  | nil =>
    constructor
    · intro e he
      simp [assertContainsRun] at he
    · intro he
      simp [assertContainsRun] at he
  | cons p rest ih =>
    obtain ⟨s, t⟩ := p
    constructor
    · intro e he
      simp only [assertContainsRun] at he
      by_cases hfound : hasSub needle (snapshotFromText s mark) = true
      · rw [assertStep, if_pos hfound] at he
        simp at he
      · by_cases hdl : deadline ≤ t
        · rw [assertStep, if_neg hfound, if_pos hdl] at he
          simp only [Option.some.injEq, Except.error.injEq] at he
          refine ⟨s, t, List.mem_cons_self _ _, hdl, he.symm, ?_⟩
          rw [← he]
          show hasSub (snapshotFromText s mark)
            (diagHeader needle ++ snapshotFromText s mark ++ diagFooter) = true
          exact hasSub_mid _ _ _
        · rw [assertStep, if_neg hfound, if_neg hdl] at he
          obtain ⟨s', t', hmem, hdl', heq, hsub⟩ := ih.1 e he
          exact ⟨s', t', List.mem_cons_of_mem _ hmem, hdl', heq, hsub⟩
    · intro he
      simp only [assertContainsRun] at he
      by_cases hfound : hasSub needle (snapshotFromText s mark) = true
      · exact ⟨s, t, List.mem_cons_self _ _, hfound⟩
      · by_cases hdl : deadline ≤ t
        · rw [assertStep, if_neg hfound, if_pos hdl] at he
          simp at he
        · rw [assertStep, if_neg hfound, if_neg hdl] at he
          obtain ⟨s', t', hmem, hfound'⟩ := ih.2 he
          exact ⟨s', t', List.mem_cons_of_mem _ hmem, hfound'⟩

/-- Concrete instance of `c8_assert_contains`: needle `ok`, buffer `no`,
one poll past the deadline — the loop raises and the diagnostic embeds the
captured transcript. -/
theorem c8_witness :
    ∃ s t, (s, t) ∈ [((⟨[110, 111], 0, 10⟩ : BufState), 200)] ∧ 100 ≤ t ∧
      diagMsg ['o', 'k'] (snapshotFromText ⟨[110, 111], 0, 10⟩ none) =
        diagMsg ['o', 'k'] (snapshotFromText s none) ∧
      hasSub (snapshotFromText s none)
        (diagMsg ['o', 'k'] (snapshotFromText ⟨[110, 111], 0, 10⟩ none)) = true :=
  (c8_assert_contains ['o', 'k'] 100 none
    [((⟨[110, 111], 0, 10⟩ : BufState), 200)]).1
    (diagMsg ['o', 'k'] (snapshotFromText ⟨[110, 111], 0, 10⟩ none)) (by rfl)

/-- Observable actions of `SerialConnection.reset_run` (lines 161-175):
capturing the mark under the lock, toggling the DTR (boot-select) and RTS
(reset) control lines, and sleeping. -/
inductive ResetEvent where
  | markCapture : Nat → ResetEvent
  | setDTR : Bool → ResetEvent
  | setRTS : Bool → ResetEvent
  | sleepMs : Nat → ResetEvent

/-- `SerialConnection.reset_run`: capture `start_pos = _buf_base_index +
len(_buf)` under the lock first; then `setDTR(False)` (boot-select
released, GPIO0 high = normal run), sleep 20 ms, `setRTS(True)` (reset
asserted, EN low), sleep 100 ms (the fixed pulse), `setRTS(False)` (reset
released), sleep `wait_after_s`; return `start_pos`.  Returns the mark and
the ordered action trace. -/
def resetRun (s : BufState) (waitAfterMs : Nat) : Nat × List ResetEvent :=
  let startPos := s.base + s.buf.length
  (startPos,
    [ResetEvent.markCapture startPos, ResetEvent.setDTR false,
     ResetEvent.sleepMs 20, ResetEvent.setRTS true, ResetEvent.sleepMs 100,
     ResetEvent.setRTS false, ResetEvent.sleepMs waitAfterMs])

/-- Claim C9: `reset_run` first releases the boot-select line (DTR False),
then performs the reset pulse (RTS True, fixed 100 ms wait, RTS False),
and its returned mark — captured before any control-line action — equals
the total number of bytes ever appended, so every byte the reset produces
is appended after it and occupies logical offsets at or after the mark:
dropping the mark from any extended stream yields exactly the
subsequently appended bytes. -/
theorem c9_reset_run (limit : Nat) (s : BufState) (stream : List Nat) (ev : Nat)
    (waitAfterMs : Nat) (h : Reach limit s stream ev) :
    (resetRun s waitAfterMs).1 = stream.length ∧
      (resetRun s waitAfterMs).2 =
        [ResetEvent.markCapture stream.length, ResetEvent.setDTR false,
         ResetEvent.sleepMs 20, ResetEvent.setRTS true, ResetEvent.sleepMs 100,
         ResetEvent.setRTS false, ResetEvent.sleepMs waitAfterMs] ∧
      (∀ rest : List Nat,
        (stream ++ rest).drop (resetRun s waitAfterMs).1 = rest) := by
  obtain ⟨_, hbase, hlen, _, _⟩ := reach_state limit s stream ev h
  have hmark : (resetRun s waitAfterMs).1 = stream.length := by
    show s.base + s.buf.length = stream.length
    omega
  refine ⟨hmark, ?_, ?_⟩
  · show (resetRun s waitAfterMs).2 = _
    simp only [resetRun]
    rw [show s.base + s.buf.length = stream.length from hmark]
  · intro rest
    rw [hmark, List.drop_left]

/-- Concrete instance of `c9_reset_run`: limit 2, appends `[1,2]` then
`[3]`, mark 3; the post-reset bytes `[7,8]` are exactly what lies at or
after the mark. -/
theorem c9_witness :
    (resetRun (appendChunk (appendChunk (initState 2) [1, 2]) [3]) 300).1 =
        (([] ++ [1, 2]) ++ [3]).length ∧
      (resetRun (appendChunk (appendChunk (initState 2) [1, 2]) [3]) 300).2 =
        [ResetEvent.markCapture (([] ++ [1, 2]) ++ [3]).length,
         ResetEvent.setDTR false, ResetEvent.sleepMs 20, ResetEvent.setRTS true,
         ResetEvent.sleepMs 100, ResetEvent.setRTS false, ResetEvent.sleepMs 300] ∧
      (∀ rest : List Nat,
        ((([] ++ [1, 2]) ++ [3]) ++ rest).drop
          (resetRun (appendChunk (appendChunk (initState 2) [1, 2]) [3]) 300).1 =
          rest) :=
  c9_reset_run 2 _ _ _ 300
    (Reach.step _ _ _ [3] (Reach.step _ _ _ [1, 2] Reach.init))
